import Mathlib

/-!
# Verification of the d2-viewer layer-tree, prerender and export logic

Shallow embedding of the pure logic of `src/App.tsx` (layer-tree
extraction, title extraction, target flattening) and
`scripts/prerender.ts` (import-graph resolution, SVG dimension
normalization, HTML generation and the main export control flow),
together with proofs of the specification claims about them.

Strings are modelled by Lean `String`/`List Char`; JavaScript regular
expression matching is unfolded into explicit character-list scanning
that reproduces the matching semantics of the concrete patterns used in
the source (which are all anchored or first-match searches over simple
character classes).
-/

namespace D2Viewer

/-- The whitespace class of JavaScript regular expressions (`\s`), restricted
to the ASCII whitespace characters that can occur in the strings this
code processes: space, tab, newline, carriage return, vertical tab, form feed. -/
def isJsWs (c : Char) : Bool :=
  c = ' ' || c = '\t' || c = '\n' || c = '\r' || c = '\x0b' || c = '\x0c'

/-- `String.prototype.trim`: drop whitespace from both ends (on char lists). -/
def jsTrimList (l : List Char) : List Char :=
  (l.dropWhile isJsWs).reverse.dropWhile isJsWs |>.reverse

/-- `String.prototype.replace(/c/g, rep)` for a single-character pattern `c`
whose replacement string `rep` contains no `$` patterns: every occurrence of
`c` is replaced by `rep`. -/
def replChar (c : Char) (rep : List Char) (l : List Char) : List Char :=
  l.flatMap (fun x => if x = c then rep else [x])

/-! ## Data model (`src/App.tsx`)

The compiled diagram object returned by the external compiler, as the
extraction code consumes it: a `name`, an optional `shapes` array, and
three optional arrays `layers` / `scenarios` / `steps` whose entries may
be null (the code guards with `?? []` and `if (!layer) continue`). -/

/-- A shape of a compiled diagram: an `id` and an optional `label`
(the code tests `"label" in titleShape`). -/
structure Shape where
  id : String
  label : Option String
deriving Repr, DecidableEq

/-- A compiled diagram node (`Diagram` of `@terrastruct/d2` as consumed by
`extractLayers` / `extractTitle`). -/
inductive Diagram : Type where
  | mk
      (name : String)
      (shapes : Option (List Shape))
      (layers : Option (List (Option Diagram)))
      (scenarios : Option (List (Option Diagram)))
      (steps : Option (List (Option Diagram))) : Diagram
deriving Repr

/-- `diagram.name`. -/
def Diagram.name : Diagram → String
  | .mk n _ _ _ _ => n

/-- `diagram.shapes`. -/
def Diagram.shapes : Diagram → Option (List Shape)
  | .mk _ sh _ _ _ => sh

/-- `diagram.layers`. -/
def Diagram.layers : Diagram → Option (List (Option Diagram))
  | .mk _ _ ls _ _ => ls

/-- `diagram.scenarios`. -/
def Diagram.scenarios : Diagram → Option (List (Option Diagram))
  | .mk _ _ _ ss _ => ss

/-- `diagram.steps`. -/
def Diagram.steps : Diagram → Option (List (Option Diagram))
  | .mk _ _ _ _ ts => ts

/-- The three node kinds of a `LayerNode` (`type: "layer" | "scenario" | "step"`). -/
inductive NType : Type where
  | layer
  | scenario
  | step
deriving Repr, DecidableEq

/-- A node of the navigable hierarchy (`interface LayerNode` of `src/App.tsx`).
`title` is `none` when the spread `...(title && { title })` omits the field
(no title found, or a falsy — empty — title). -/
inductive LayerNode : Type where
  | mk
      (name : String)
      (path : String)
      (type : NType)
      (title : Option String)
      (children : List LayerNode) : LayerNode
deriving Repr

/-- `node.name`. -/
def LayerNode.name : LayerNode → String
  | .mk n _ _ _ _ => n

/-- `node.path`. -/
def LayerNode.path : LayerNode → String
  | .mk _ p _ _ _ => p

/-- `node.type`. -/
def LayerNode.type : LayerNode → NType
  | .mk _ _ t _ _ => t

/-- `node.title`. -/
def LayerNode.title : LayerNode → Option String
  | .mk _ _ _ t _ => t

/-- `node.children`. -/
def LayerNode.children : LayerNode → List LayerNode
  | .mk _ _ _ _ c => c

/-- The children of a node are structurally smaller than the node. -/
theorem LayerNode.sizeOf_children_lt (n : LayerNode) : sizeOf n.children < sizeOf n := by
  cases n with
  | mk name path ty ti ch => simp [LayerNode.children]

/-! ## Target flattening (`flattenTargets`, `src/App.tsx` lines 609-621)

The source pushes `node.path` into an accumulator array and then recurses
into `node.children`, iterating the sibling list in order. -/

/-- The `traverse` closure of `flattenTargets`: `targets.push(node.path)`
then `traverse(node.children)`, for each node of the list in order.
The accumulator models the mutated `targets` array. -/
def traverseAcc : List String → List LayerNode → List String
  | acc, [] => acc
  | acc, n :: rest => traverseAcc (traverseAcc (acc ++ [n.path]) n.children) rest
termination_by _ l => sizeOf l
decreasing_by
  all_goals simp
  all_goals exact lt_of_lt_of_le (LayerNode.sizeOf_children_lt n) (by omega)

/-- `flattenTargets` (`src/App.tsx`): flatten the layer tree into the list of
target paths, by the accumulating traversal of the source. -/
def flattenTargets (layers : List LayerNode) : List String :=
  traverseAcc [] layers

/-- Manual depth-first pre-order traversal of a `LayerNode` forest, collecting
each node's `path` (the node itself before its descendants, siblings in
order). This is the specification-side description of the flattening. -/
def preorderPaths : List LayerNode → List String
  | [] => []
  | n :: rest => n.path :: (preorderPaths n.children ++ preorderPaths rest)
termination_by l => sizeOf l
decreasing_by
  all_goals simp
  all_goals exact lt_of_lt_of_le (LayerNode.sizeOf_children_lt n) (by omega)

/-- The accumulating traversal appends the pre-order path list. -/
theorem traverseAcc_eq (acc : List String) (l : List LayerNode) :
    traverseAcc acc l = acc ++ preorderPaths l := by
  induction acc, l using traverseAcc.induct with
  | case1 acc => simp [traverseAcc, preorderPaths]
  | case2 acc n rest ih1 ih2 => rw [traverseAcc, ih2, ih1, preorderPaths]; simp

/-- `flattenTargets` is exactly the depth-first pre-order path list. -/
theorem flattenTargets_eq_preorder (l : List LayerNode) :
    flattenTargets l = preorderPaths l := by
  simpa using traverseAcc_eq [] l

/-! ## Title extraction (`extractMarkdownTitle` / `extractTitle`,
`src/App.tsx` lines 503-548)

`extractMarkdownTitle` strips a `|md` prefix, searches for the first
multiline-anchored heading match of `/^#+\s+(.+)$/m`, and otherwise falls
back to the first non-empty line, or the raw label. The heading match is
unfolded into explicit scanning: at a line start the pattern consumes a
run of `#`, at least one whitespace character (which, `\s` matching
newlines, may cross line boundaries), and captures the greedy non-newline
remainder; when the whitespace run reaches the end of the string the
engine backtracks to the last non-newline whitespace character. -/

/-- Attempt the heading pattern `#+\s+(.+)$` at one line-start position;
returns the captured group. -/
def matchHeadingAt (l : List Char) : Option (List Char) :=
  let hs := l.takeWhile (fun c => c = '#')
  if hs.isEmpty then none
  else
    let r := l.drop hs.length
    let ws := r.takeWhile isJsWs
    if ws.isEmpty then none
    else
      match r.drop ws.length with
      | [] =>
        match (ws.drop 1).reverse.find? (fun c => c ≠ '\n') with
        | some c => some [c]
        | none => none
      | c :: r2 => some ((c :: r2).takeWhile (fun x => x ≠ '\n'))

/-- Drop up to and including the first newline (move to the next line start). -/
def dropLine : List Char → List Char
  | [] => []
  | '\n' :: rest => rest
  | _ :: rest => dropLine rest

theorem dropLine_length_le (l : List Char) : (dropLine l).length ≤ l.length := by
  induction l with
  | nil => simp [dropLine]
  | cons c rest ih =>
    by_cases h : c = '\n'
    · subst h; simp [dropLine]
    · rw [show dropLine (c :: rest) = dropLine rest by
        cases c <;> simp_all [dropLine]]
      simp; omega

theorem dropLine_length_lt (c : Char) (rest : List Char) :
    (dropLine (c :: rest)).length < (c :: rest).length := by
  by_cases h : c = '\n'
  · subst h; simp [dropLine]
  · rw [show dropLine (c :: rest) = dropLine rest by
      cases c <;> simp_all [dropLine]]
    have := dropLine_length_le rest
    simp; omega

/-- `content.match(/^#+\s+(.+)$/m)`: the first line start at which the heading
pattern matches, scanning line starts left to right. -/
def findHeading (l : List Char) : Option (List Char) :=
  match matchHeadingAt l with
  | some cap => some cap
  | none =>
    match l with
    | [] => none
    | c :: rest => findHeading (dropLine (c :: rest))
termination_by l.length
decreasing_by
  exact dropLine_length_lt _ _

/-- `extractMarkdownTitle` (`src/App.tsx`): strip the `|md` prefix (and the
whitespace run after it), return the trimmed first heading capture, else the
trimmed first non-empty line, else the raw label. -/
def extractMarkdownTitle (label : String) : String :=
  let content : List Char :=
    match label.data with
    | '|' :: 'm' :: 'd' :: rest => rest.dropWhile isJsWs
    | l => l
  match findHeading content with
  | some cap => (jsTrimList cap).asString
  | none =>
    match (content.splitOn '\n').find? (fun line => !(jsTrimList line).isEmpty) with
    | some line => (jsTrimList line).asString
    | none => label

/-- `label.startsWith("|md")`, on the character list. -/
def startsWithMd (label : String) : Bool :=
  match label.data with
  | '|' :: 'm' :: 'd' :: _ => true
  | _ => false

/-- `label.includes("#")`, on the character list. -/
def containsHash (label : String) : Bool := label.data.contains '#'

/-- `s.startsWith(pre)`, on the character lists. -/
def strStartsWith (s pre : String) : Bool := pre.data.isPrefixOf s.data

/-- `s.endsWith(suf)`, on the character lists. -/
def strEndsWith (s suf : String) : Bool := suf.data.isSuffixOf s.data

/-- The `find` predicate of `extractTitle`: a shape whose id is `title` or
ends in `.title`, excluding the `d2-config` namespace. -/
def isTitleShape (s : Shape) : Bool :=
  if s.id = "d2-config" || strStartsWith s.id "d2-config." then false
  else s.id = "title" || strEndsWith s.id ".title"

/-- `extractTitle` (`src/App.tsx`): find the title shape; if its label starts
with `|md` or contains `#`, extract the markdown title, else return the raw
label. -/
def extractTitle (d : Diagram) : Option String :=
  match (d.shapes.getD []).find? isTitleShape with
  | none => none
  | some s =>
    match s.label with
    | none => none
    | some label =>
      if startsWithMd label || containsHash label then
        some (extractMarkdownTitle label)
      else
        some label

/-! ## Layer-tree extraction (`extractLayers`, `src/App.tsx` lines 553-604) -/

/-- The `title` field as included by the spread `...(title && { title })`:
present only when `extractTitle` produced a truthy (non-empty) string. -/
def titleField (d : Diagram) : Option String :=
  match extractTitle d with
  | some t => if t = "" then none else some t
  | none => none

/-- The path of a child node: `` parentPath ? `${parentPath}.${name}` :
`${keyword}.${name}` `` — the collection keyword is used only when the
parent path is empty (a root-level node). -/
def childPath (pp kw name : String) : String :=
  if pp = "" then kw ++ "." ++ name else pp ++ "." ++ name

mutual

/-- `extractLayers` (`src/App.tsx`): build the `LayerNode` forest of a
compiled diagram — all (non-null) `layers` in order, then all `scenarios`,
then all `steps`, recursing into each board with its own path as the
parent path. -/
def extractLayers : Diagram → String → List LayerNode
  | .mk _ _ ls ss ts, parentPath =>
    extractOpt parentPath "layers" NType.layer ls ++
    extractOpt parentPath "scenarios" NType.scenario ss ++
    extractOpt parentPath "steps" NType.step ts

/-- One collection of `extractLayers`: `diagram.layers ?? []`. -/
def extractOpt : String → String → NType → Option (List (Option Diagram)) → List LayerNode
  | _, _, _, none => []
  | pp, kw, ty, some l => extractColl pp kw ty l

/-- The per-collection loop of `extractLayers`, skipping null entries
(`if (!layer) continue`). -/
def extractColl : String → String → NType → List (Option Diagram) → List LayerNode
  | _, _, _, [] => []
  | pp, kw, ty, none :: rest => extractColl pp kw ty rest
  | pp, kw, ty, some d :: rest =>
    LayerNode.mk d.name (childPath pp kw d.name) ty (titleField d)
        (extractLayers d (childPath pp kw d.name)) ::
      extractColl pp kw ty rest

end

/-! ## Membership and shape lemmas for `extractLayers` -/

/-- Unfolding of `extractLayers` through the field accessors. -/
theorem extractLayers_eq (d : Diagram) (pp : String) :
    extractLayers d pp =
      extractOpt pp "layers" NType.layer d.layers ++
      extractOpt pp "scenarios" NType.scenario d.scenarios ++
      extractOpt pp "steps" NType.step d.steps := by
  cases d with
  | mk n sh ls ss ts =>
    rw [extractLayers]
    rfl

/-- The node built for a board occurring in a collection list occurs in the
extraction of that list. -/
theorem mem_extractColl (pp kw : String) (ty : NType) (l : List (Option Diagram))
    (d : Diagram) (h : some d ∈ l) :
    LayerNode.mk d.name (childPath pp kw d.name) ty (titleField d)
      (extractLayers d (childPath pp kw d.name)) ∈ extractColl pp kw ty l := by
  induction l with
  | nil => simp at h
  | cons o rest ih =>
    cases o with
    | none =>
      rw [extractColl]
      exact ih (by simpa using h)
    | some d' =>
      rw [extractColl]
      rcases List.mem_cons.mp h with h' | h'
      · obtain rfl : d' = d := by injection h'.symm
        exact List.mem_cons_self _ _
      · exact List.mem_cons_of_mem _ (ih h')

/-! ## Concrete diagrams used as explicit inputs -/

/-- A scenario board named `timeout` with no children. -/
def dTimeout : Diagram := .mk "timeout" none none none none

/-- A layer board named `auth` with the scenario `timeout` nested under it. -/
def dAuth : Diagram := .mk "auth" none none (some [some dTimeout]) none

/-- A root diagram with the single root-level layer `auth`. -/
def dRootC1 : Diagram := .mk "root" none (some [some dAuth]) none none

/-- A layer board named `x` with no children. -/
def dLayerX : Diagram := .mk "x" none none none none

/-- A scenario board also named `x` with no children. -/
def dScenX : Diagram := .mk "x" none none none none

/-- A layer `p` containing a layer named `x` and a scenario named `x`. -/
def dP : Diagram := .mk "p" none (some [some dLayerX]) (some [some dScenX]) none

/-- A root diagram with the single root-level layer `p`. -/
def dRootC2 : Diagram := .mk "root" none (some [some dP]) none none

/-- The number of non-null boards of a collection (`diagram.layers ?? []`
minus the entries skipped by `if (!layer) continue`). -/
def boardCount (o : Option (List (Option Diagram))) : Nat :=
  ((o.getD []).filterMap id).length

/-- All nodes extracted from one collection carry that collection's type. -/
theorem extractColl_map_type (pp kw : String) (ty : NType) (l : List (Option Diagram)) :
    (extractColl pp kw ty l).map LayerNode.type =
      List.replicate (l.filterMap id).length ty := by
  induction l with
  | nil => simp [extractColl]
  | cons o rest ih =>
    cases o with
    | none => rw [extractColl]; simpa using ih
    | some d =>
      rw [extractColl]
      simpa [LayerNode.type, List.replicate_succ] using ih

/-- `extractOpt` version of `extractColl_map_type`. -/
theorem extractOpt_map_type (pp kw : String) (ty : NType)
    (o : Option (List (Option Diagram))) :
    (extractOpt pp kw ty o).map LayerNode.type = List.replicate (boardCount o) ty := by
  cases o with
  | none => simp [extractOpt, boardCount]
  | some l => rw [extractOpt]; simpa [boardCount] using extractColl_map_type pp kw ty l

/-! ## Path uniqueness

The path of every node is its parent's path (or the collection keyword at
root level) joined with the node's bare name by a dot. Uniqueness of paths
across the tree therefore holds when names are dot-free and the names of
the boards under one parent are pairwise distinct across its three
collections — and fails otherwise (see the C2 counterexample). -/

/-- The names of the non-null boards of a collection list. -/
def collNamesL (l : List (Option Diagram)) : List String :=
  (l.filterMap id).map Diagram.name

/-- The names of the non-null boards of an optional collection. -/
def collNames (o : Option (List (Option Diagram))) : List String :=
  collNamesL (o.getD [])

/-- The names of all boards directly under a diagram node. -/
def allNames (d : Diagram) : List String :=
  collNames d.layers ++ collNames d.scenarios ++ collNames d.steps

mutual

/-- Well-formedness of a diagram for path uniqueness: at every node, the
names of the boards across the three collections are pairwise distinct and
contain no `.` character. -/
def goodNames : Diagram → Bool
  | .mk _ _ ls ss ts =>
    decide ((collNames ls ++ collNames ss ++ collNames ts).Nodup) &&
      (goodOpt ls && (goodOpt ss && goodOpt ts))

/-- `goodNames` over an optional collection. -/
def goodOpt : Option (List (Option Diagram)) → Bool
  | none => true
  | some l => goodList l

/-- `goodNames` over a collection list. -/
def goodList : List (Option Diagram) → Bool
  | [] => true
  | none :: rest => goodList rest
  | some b :: rest =>
    decide ('.' ∉ b.name.data) && (goodNames b && goodList rest)

end

/-- Unfolding of `goodNames` through the field accessors. -/
theorem goodNames_eq (d : Diagram) :
    goodNames d =
      (decide ((allNames d).Nodup) &&
        (goodOpt d.layers && (goodOpt d.scenarios && goodOpt d.steps))) := by
  cases d with
  | mk n sh ls ss ts => rw [goodNames]; rfl

/-- The leading piece of a child path: the parent path, or the collection
keyword for a root-level node. -/
def basePath (pp kw : String) : String :=
  if pp = "" then kw else pp

theorem childPath_eq (pp kw name : String) :
    childPath pp kw name = basePath pp kw ++ "." ++ name := by
  unfold childPath basePath
  by_cases h : pp = "" <;> simp [h]

/-- A character list that is either empty or starts with a dot — the shape of
the part of a descendant's path that follows a node's bare name. -/
def DotStart (r : List Char) : Prop := r = [] ∨ ∃ r', r = '.' :: r'

/-- `q` extends `base` with a dot, one name from `ns`, and a (possibly empty)
dot-started remainder. Every path produced under `base` has this shape. -/
def ExtOf (base : List Char) (ns : List String) (q : String) : Prop :=
  ∃ n r, q.data = base ++ '.' :: (n.data ++ r) ∧ n ∈ ns ∧ '.' ∉ n.data ∧ DotStart r

/-- Cancellation for dot-free blocks: if two dot-free lists followed by
dot-started (or empty) remainders concatenate to the same list, the blocks
and the remainders agree. -/
theorem dotfree_append_cancel :
    ∀ (a b x y : List Char), '.' ∉ a → '.' ∉ b →
      DotStart x → DotStart y → a ++ x = b ++ y → a = b ∧ x = y := by
  intro a
  induction a with
  | nil =>
    intro b x y _ hb hx _ h
    cases b with
    | nil => exact ⟨rfl, h⟩
    | cons e b' =>
      rcases hx with rfl | ⟨x', rfl⟩
      · exact absurd h (by simp)
      · simp only [List.nil_append, List.cons_append, List.cons.injEq] at h
        exact absurd (show ('.' : Char) ∈ e :: b' by
          rw [h.1]; exact List.mem_cons_self e b') hb
  | cons c a' ih =>
    intro b x y ha hb hx hy h
    cases b with
    | nil =>
      rcases hy with rfl | ⟨y', rfl⟩
      · exact absurd h.symm (by simp)
      · simp only [List.cons_append, List.nil_append, List.cons.injEq] at h
        exact absurd (show ('.' : Char) ∈ c :: a' by
          rw [← h.1]; exact List.mem_cons_self c a') ha
    | cons e b' =>
      simp only [List.cons_append, List.cons.injEq] at h
      obtain ⟨rfl, h2⟩ := h
      have := ih b' x y (fun hm => ha (List.mem_cons_of_mem _ hm))
        (fun hm => hb (List.mem_cons_of_mem _ hm)) hx hy h2
      exact ⟨by rw [this.1], this.2⟩

/-- `preorderPaths` distributes over forest concatenation. -/
theorem preorderPaths_append (a b : List LayerNode) :
    preorderPaths (a ++ b) = preorderPaths a ++ preorderPaths b := by
  induction a with
  | nil => simp [preorderPaths]
  | cons n rest ih =>
    rw [List.cons_append, preorderPaths, preorderPaths, ih]
    simp

theorem ExtOf.mono {base : List Char} {ns ns' : List String} {q : String}
    (h : ExtOf base ns q) (sub : ns ⊆ ns') : ExtOf base ns' q := by
  obtain ⟨n, r, h1, h2, h3, h4⟩ := h
  exact ⟨n, r, h1, sub h2, h3, h4⟩

theorem childPath_data (pp kw n : String) :
    (childPath pp kw n).data = (basePath pp kw).data ++ '.' :: n.data := by
  rw [childPath_eq]
  simp [String.data_append]

theorem childPath_ne_empty (pp kw n : String) : childPath pp kw n ≠ "" := by
  intro h
  have h2 := congrArg String.data h
  rw [childPath_data] at h2
  simp at h2

theorem basePath_of_ne (pp kw : String) (h : pp ≠ "") : basePath pp kw = pp := by
  simp [basePath, h]

theorem goodList_cons_some (b : Diagram) (rest : List (Option Diagram))
    (h : goodList (some b :: rest) = true) :
    '.' ∉ b.name.data ∧ goodNames b = true ∧ goodList rest = true := by
  rw [goodList] at h
  simp only [Bool.and_eq_true, decide_eq_true_eq] at h
  exact ⟨h.1, h.2.1, h.2.2⟩

theorem goodNames_parts (d : Diagram) (h : goodNames d = true) :
    (allNames d).Nodup ∧ goodOpt d.layers = true ∧ goodOpt d.scenarios = true ∧
      goodOpt d.steps = true := by
  rw [goodNames_eq] at h
  simp only [Bool.and_eq_true, decide_eq_true_eq] at h
  exact ⟨h.1, h.2.1, h.2.2.1, h.2.2.2⟩

theorem sizeOf_layers_lt (b : Diagram) (lst : List (Option Diagram))
    (h : b.layers = some lst) : sizeOf lst < sizeOf b := by
  cases b with
  | mk n sh ls ss ts =>
    simp only [Diagram.layers] at h
    subst h
    simp
    omega

theorem sizeOf_scenarios_lt (b : Diagram) (lst : List (Option Diagram))
    (h : b.scenarios = some lst) : sizeOf lst < sizeOf b := by
  cases b with
  | mk n sh ls ss ts =>
    simp only [Diagram.scenarios] at h
    subst h
    simp
    omega

theorem sizeOf_steps_lt (b : Diagram) (lst : List (Option Diagram))
    (h : b.steps = some lst) : sizeOf lst < sizeOf b := by
  cases b with
  | mk n sh ls ss ts =>
    simp only [Diagram.steps] at h
    subst h
    simp
    omega

/-- Collection names are contained in the parent's name list, per field. -/
theorem collNamesL_subset_allNames (b : Diagram) (lst : List (Option Diagram))
    (h : b.layers = some lst ∨ b.scenarios = some lst ∨ b.steps = some lst) :
    collNamesL lst ⊆ allNames b := by
  intro x hx
  unfold allNames
  rcases h with h | h | h <;> rw [h] <;>
    simp only [collNames, Option.getD_some, List.mem_append] <;> tauto

/-- Every path produced by `extractLayers` under a nonempty parent path
extends the parent path with a dot, a child name, and a dot-started
remainder — stated with the per-collection shape facts for structurally
smaller lists as a hypothesis, to be discharged by the strong induction. -/
theorem treeShape_of (d : Diagram) (pp : String) (hpp : pp ≠ "")
    (hg : goodNames d = true)
    (hcoll : ∀ l : List (Option Diagram), sizeOf l < sizeOf d →
      ∀ (pp' kw' : String) (ty' : NType), goodList l = true →
        ∀ q ∈ preorderPaths (extractColl pp' kw' ty' l),
          ExtOf (basePath pp' kw').data (collNamesL l) q) :
    ∀ q ∈ preorderPaths (extractLayers d pp), ExtOf pp.data (allNames d) q := by
  intro q hq
  rw [extractLayers_eq, preorderPaths_append, preorderPaths_append] at hq
  obtain ⟨-, hgL, hgS, hgT⟩ := goodNames_parts d hg
  rcases List.mem_append.mp hq with hq' | hq'
  · rcases List.mem_append.mp hq' with hq2 | hq2
    · cases hls : d.layers with
      | none => rw [hls, extractOpt] at hq2; simp [preorderPaths] at hq2
      | some lst =>
        rw [hls, extractOpt] at hq2
        rw [hls, goodOpt] at hgL
        have h := hcoll lst (sizeOf_layers_lt d lst hls) pp "layers" NType.layer hgL q hq2
        rw [basePath_of_ne pp "layers" hpp] at h
        exact h.mono (collNamesL_subset_allNames d lst (Or.inl hls))
    · cases hss : d.scenarios with
      | none => rw [hss, extractOpt] at hq2; simp [preorderPaths] at hq2
      | some lst =>
        rw [hss, extractOpt] at hq2
        rw [hss, goodOpt] at hgS
        have h := hcoll lst (sizeOf_scenarios_lt d lst hss) pp "scenarios" NType.scenario hgS q hq2
        rw [basePath_of_ne pp "scenarios" hpp] at h
        exact h.mono (collNamesL_subset_allNames d lst (Or.inr (Or.inl hss)))
  · cases hts : d.steps with
    | none => rw [hts, extractOpt] at hq'; simp [preorderPaths] at hq'
    | some lst =>
      rw [hts, extractOpt] at hq'
      rw [hts, goodOpt] at hgT
      have h := hcoll lst (sizeOf_steps_lt d lst hts) pp "steps" NType.step hgT q hq'
      rw [basePath_of_ne pp "steps" hpp] at h
      exact h.mono (collNamesL_subset_allNames d lst (Or.inr (Or.inr hts)))

theorem collNamesL_cons_some (b : Diagram) (rest : List (Option Diagram)) :
    collNamesL (some b :: rest) = b.name :: collNamesL rest := by
  simp [collNamesL]

theorem collNamesL_cons_none (rest : List (Option Diagram)) :
    collNamesL (none :: rest) = collNamesL rest := by
  simp [collNamesL]

/-- Shape of all paths produced from one collection list, by strong induction
on the size of the list: every path extends the base (parent path or root
keyword) with a dot, the name of one of the list's boards, and a dot-started
remainder. -/
theorem collShapeAux :
    ∀ (N : Nat) (l : List (Option Diagram)), sizeOf l ≤ N →
      ∀ (pp kw : String) (ty : NType), goodList l = true →
        ∀ q ∈ preorderPaths (extractColl pp kw ty l),
          ExtOf (basePath pp kw).data (collNamesL l) q := by
  intro N
  induction N with
  | zero =>
    intro l hl
    exfalso
    cases l <;> simp at hl
  | succ N ih =>
    intro l hl pp kw ty hg q hq
    cases l with
    | nil => rw [extractColl] at hq; simp [preorderPaths] at hq
    | cons o rest =>
      cases o with
      | none =>
        rw [extractColl] at hq
        rw [goodList] at hg
        have hrestN : sizeOf rest ≤ N := by
          simp only [List.cons.sizeOf_spec] at hl
          omega
        have h := ih rest hrestN pp kw ty hg q hq
        rw [collNamesL_cons_none]
        exact h
      | some b =>
        obtain ⟨hdot, hgb, hgrest⟩ := goodList_cons_some b rest hg
        rw [extractColl, preorderPaths] at hq
        simp only [LayerNode.path, LayerNode.children] at hq
        rcases List.mem_cons.mp hq with rfl | hq'
        · exact ⟨b.name, [], by rw [childPath_data]; simp,
            by rw [collNamesL_cons_some]; exact List.mem_cons_self _ _,
            hdot, Or.inl rfl⟩
        · rcases List.mem_append.mp hq' with hq2 | hq2
          · have hbN : sizeOf b ≤ N := by
              simp only [List.cons.sizeOf_spec, Option.some.sizeOf_spec] at hl
              omega
            have htree := treeShape_of b (childPath pp kw b.name)
              (childPath_ne_empty pp kw b.name) hgb
              (fun lst hlst pp' kw' ty' hgl =>
                ih lst (Nat.le_of_lt (Nat.lt_of_lt_of_le hlst hbN)) pp' kw' ty' hgl)
            obtain ⟨n', r', he, hn', hd', hds'⟩ := htree q hq2
            refine ⟨b.name, '.' :: (n'.data ++ r'), ?_,
              by rw [collNamesL_cons_some]; exact List.mem_cons_self _ _,
              hdot, Or.inr ⟨_, rfl⟩⟩
            rw [he, childPath_data]
            simp
          · have hrestN : sizeOf rest ≤ N := by
              simp only [List.cons.sizeOf_spec, Option.some.sizeOf_spec] at hl
              omega
            have h := ih rest hrestN pp kw ty hgrest q hq2
            exact h.mono (by rw [collNamesL_cons_some]; exact List.subset_cons_self _ _)

/-- Shape of all paths produced from one collection list. -/
theorem collShape (l : List (Option Diagram)) (pp kw : String) (ty : NType)
    (hg : goodList l = true) :
    ∀ q ∈ preorderPaths (extractColl pp kw ty l),
      ExtOf (basePath pp kw).data (collNamesL l) q :=
  collShapeAux (sizeOf l) l (Nat.le_refl _) pp kw ty hg

/-- Shape of all paths of the subtree of a board with a nonempty parent
path. -/
theorem treeShape (d : Diagram) (pp : String) (hpp : pp ≠ "")
    (hg : goodNames d = true) :
    ∀ q ∈ preorderPaths (extractLayers d pp), ExtOf pp.data (allNames d) q :=
  treeShape_of d pp hpp hg (fun l _ pp' kw' ty' hgl => collShape l pp' kw' ty' hgl)

/-- Two shape facts about the same path over the same base force a common
name in the two name lists. -/
theorem ExtOf_inj_names {base : List Char} {ns1 ns2 : List String} {q : String}
    (h1 : ExtOf base ns1 q) (h2 : ExtOf base ns2 q) : ∃ n, n ∈ ns1 ∧ n ∈ ns2 := by
  obtain ⟨n1, r1, e1, m1, d1, s1⟩ := h1
  obtain ⟨n2, r2, e2, m2, d2, s2⟩ := h2
  rw [e1] at e2
  have h3 := List.append_cancel_left e2
  have h4 : n1.data ++ r1 = n2.data ++ r2 := by injection h3
  obtain ⟨h5, -⟩ := dotfree_append_cancel n1.data n2.data r1 r2 d1 d2 s1 s2 h4
  exact ⟨n1, m1, String.ext h5 ▸ m2⟩

/-- Two shape facts about the same path over dot-free bases force the bases
to agree. -/
theorem ExtOf_root_collision {kw1 kw2 : String} {ns1 ns2 : List String} {q : String}
    (h1 : ExtOf kw1.data ns1 q) (h2 : ExtOf kw2.data ns2 q)
    (hk1 : '.' ∉ kw1.data) (hk2 : '.' ∉ kw2.data) : kw1 = kw2 := by
  obtain ⟨n1, r1, e1, -, -, -⟩ := h1
  obtain ⟨n2, r2, e2, -, -, -⟩ := h2
  rw [e1] at e2
  obtain ⟨h3, -⟩ := dotfree_append_cancel kw1.data kw2.data _ _ hk1 hk2
    (Or.inr ⟨_, rfl⟩) (Or.inr ⟨_, rfl⟩) e2
  exact String.ext h3

/-- A path of the given shape strictly extends the base, so it differs from
any string equal to the base. -/
theorem ExtOf.ne_base {base : List Char} {ns : List String} {q : String}
    (h : ExtOf base ns q) (p : String) (hp : p.data = base) : q ≠ p := by
  obtain ⟨n, r, e, -, -, -⟩ := h
  intro he
  subst he
  rw [hp] at e
  have := congrArg List.length e
  simp at this

/-- A shape fact under a child path lifts to a shape fact under the parent
base, witnessed by the child's name. -/
theorem ExtOf_lift (pp kw bn : String) (hdot : '.' ∉ bn.data)
    {ns : List String} {q : String}
    (h : ExtOf (childPath pp kw bn).data ns q) :
    ExtOf (basePath pp kw).data [bn] q := by
  obtain ⟨n, r, e, -, -, -⟩ := h
  refine ⟨bn, '.' :: (n.data ++ r), ?_, by simp, hdot, Or.inr ⟨_, rfl⟩⟩
  rw [e, childPath_data]
  simp

/-- Paths from sibling collections (or sibling groups with disjoint names)
cannot coincide. -/
theorem base_disjoint (pp kw1 kw2 : String) (hkw : kw1 ≠ kw2)
    (hk1 : '.' ∉ kw1.data) (hk2 : '.' ∉ kw2.data)
    {ns1 ns2 : List String} (hdisj : ns1.Disjoint ns2) {q : String}
    (h1 : ExtOf (basePath pp kw1).data ns1 q)
    (h2 : ExtOf (basePath pp kw2).data ns2 q) : False := by
  by_cases hpp : pp = ""
  · subst hpp
    simp only [basePath, if_pos rfl] at h1 h2
    exact hkw (ExtOf_root_collision h1 h2 hk1 hk2)
  · rw [basePath_of_ne _ _ hpp] at h1 h2
    obtain ⟨n, hn1, hn2⟩ := ExtOf_inj_names h1 h2
    exact hdisj hn1 hn2

/-- Shape of all paths produced from one optional collection. -/
theorem optShape (o : Option (List (Option Diagram))) (pp kw : String) (ty : NType)
    (hg : goodOpt o = true) :
    ∀ q ∈ preorderPaths (extractOpt pp kw ty o),
      ExtOf (basePath pp kw).data (collNames o) q := by
  cases o with
  | none => intro q hq; rw [extractOpt] at hq; simp [preorderPaths] at hq
  | some l =>
    rw [goodOpt] at hg
    intro q hq
    rw [extractOpt] at hq
    simpa [collNames] using collShape l pp kw ty hg q hq

/-- Distinctness of all paths of a board's subtree, with the per-collection
distinctness for structurally smaller lists as a hypothesis. -/
theorem treeNodup_of (d : Diagram) (pp : String) (hg : goodNames d = true)
    (hcoll : ∀ l : List (Option Diagram), sizeOf l < sizeOf d →
      ∀ (pp' kw' : String) (ty' : NType), goodList l = true →
        (collNamesL l).Nodup →
        (preorderPaths (extractColl pp' kw' ty' l)).Nodup) :
    (preorderPaths (extractLayers d pp)).Nodup := by
  obtain ⟨hnd, hgL, hgS, hgT⟩ := goodNames_parts d hg
  unfold allNames at hnd
  obtain ⟨hAB, hC, hABC⟩ := List.nodup_append.mp hnd
  obtain ⟨hA, hB, hABd⟩ := List.nodup_append.mp hAB
  have hACd : (collNames d.layers).Disjoint (collNames d.steps) :=
    fun x hx hc => hABC (List.mem_append_left _ hx) hc
  have hBCd : (collNames d.scenarios).Disjoint (collNames d.steps) :=
    fun x hx hc => hABC (List.mem_append_right _ hx) hc
  have hnL : (preorderPaths (extractOpt pp "layers" NType.layer d.layers)).Nodup := by
    cases hls : d.layers with
    | none => rw [extractOpt]; simp [preorderPaths]
    | some lst =>
      rw [extractOpt]
      rw [hls, goodOpt] at hgL
      refine hcoll lst (sizeOf_layers_lt d lst hls) pp "layers" NType.layer hgL ?_
      simpa [collNames, hls] using hA
  have hnS : (preorderPaths (extractOpt pp "scenarios" NType.scenario d.scenarios)).Nodup := by
    cases hss : d.scenarios with
    | none => rw [extractOpt]; simp [preorderPaths]
    | some lst =>
      rw [extractOpt]
      rw [hss, goodOpt] at hgS
      refine hcoll lst (sizeOf_scenarios_lt d lst hss) pp "scenarios" NType.scenario hgS ?_
      simpa [collNames, hss] using hB
  have hnT : (preorderPaths (extractOpt pp "steps" NType.step d.steps)).Nodup := by
    cases hts : d.steps with
    | none => rw [extractOpt]; simp [preorderPaths]
    | some lst =>
      rw [extractOpt]
      rw [hts, goodOpt] at hgT
      refine hcoll lst (sizeOf_steps_lt d lst hts) pp "steps" NType.step hgT ?_
      simpa [collNames, hts] using hC
  have shL := optShape d.layers pp "layers" NType.layer hgL
  have shS := optShape d.scenarios pp "scenarios" NType.scenario hgS
  have shT := optShape d.steps pp "steps" NType.step hgT
  rw [extractLayers_eq, preorderPaths_append, preorderPaths_append]
  rw [List.nodup_append, List.nodup_append]
  refine ⟨⟨hnL, hnS, ?_⟩, hnT, ?_⟩
  · intro q hq1 hq2
    exact base_disjoint pp "layers" "scenarios" (by decide) (by decide) (by decide)
      hABd (shL q hq1) (shS q hq2)
  · intro q hq hqT
    rcases List.mem_append.mp hq with hq1 | hq1
    · exact base_disjoint pp "layers" "steps" (by decide) (by decide) (by decide)
        hACd (shL q hq1) (shT q hqT)
    · exact base_disjoint pp "scenarios" "steps" (by decide) (by decide) (by decide)
        hBCd (shS q hq1) (shT q hqT)

/-- Distinctness of the paths produced from one collection list, by strong
induction on the size of the list. -/
theorem collNodupAux :
    ∀ (N : Nat) (l : List (Option Diagram)), sizeOf l ≤ N →
      ∀ (pp kw : String) (ty : NType), goodList l = true → (collNamesL l).Nodup →
        (preorderPaths (extractColl pp kw ty l)).Nodup := by
  intro N
  induction N with
  | zero =>
    intro l hl
    exfalso
    cases l <;> simp at hl
  | succ N ih =>
    intro l hl pp kw ty hg hnd
    cases l with
    | nil => rw [extractColl]; simp [preorderPaths]
    | cons o rest =>
      cases o with
      | none =>
        rw [extractColl]
        rw [goodList] at hg
        rw [collNamesL_cons_none] at hnd
        have hrestN : sizeOf rest ≤ N := by
          simp only [List.cons.sizeOf_spec] at hl
          omega
        exact ih rest hrestN pp kw ty hg hnd
      | some b =>
        obtain ⟨hdot, hgb, hgrest⟩ := goodList_cons_some b rest hg
        rw [collNamesL_cons_some] at hnd
        obtain ⟨hname_notin, hnd'⟩ := List.nodup_cons.mp hnd
        have hbN : sizeOf b ≤ N := by
          simp only [List.cons.sizeOf_spec, Option.some.sizeOf_spec] at hl
          omega
        have hrestN : sizeOf rest ≤ N := by
          simp only [List.cons.sizeOf_spec, Option.some.sizeOf_spec] at hl
          omega
        rw [extractColl, preorderPaths]
        simp only [LayerNode.path, LayerNode.children]
        rw [List.nodup_cons]
        constructor
        · intro hmem
          rcases List.mem_append.mp hmem with hm | hm
          · have hsh := treeShape b (childPath pp kw b.name)
              (childPath_ne_empty pp kw b.name) hgb _ hm
            exact (hsh.ne_base (childPath pp kw b.name) rfl) rfl
          · have h2 := collShape rest pp kw ty hgrest _ hm
            have h1 : ExtOf (basePath pp kw).data [b.name] (childPath pp kw b.name) :=
              ⟨b.name, [], by rw [childPath_data]; simp, by simp, hdot, Or.inl rfl⟩
            obtain ⟨n, hn1, hn2⟩ := ExtOf_inj_names h1 h2
            rw [List.mem_singleton] at hn1
            exact hname_notin (hn1 ▸ hn2)
        · rw [List.nodup_append]
          refine ⟨?_, ih rest hrestN pp kw ty hgrest hnd', ?_⟩
          · exact treeNodup_of b (childPath pp kw b.name) hgb
              (fun lst hlst pp' kw' ty' hgl hndl =>
                ih lst (Nat.le_of_lt (Nat.lt_of_lt_of_le hlst hbN)) pp' kw' ty' hgl hndl)
          · intro q hq1 hq2
            have hsh := treeShape b (childPath pp kw b.name)
              (childPath_ne_empty pp kw b.name) hgb _ hq1
            have h1 := ExtOf_lift pp kw b.name hdot hsh
            have h2 := collShape rest pp kw ty hgrest _ hq2
            obtain ⟨n, hn1, hn2⟩ := ExtOf_inj_names h1 h2
            rw [List.mem_singleton] at hn1
            exact hname_notin (hn1 ▸ hn2)

/-- Distinctness of all paths of a board's subtree. -/
theorem treeNodup (d : Diagram) (pp : String) (hg : goodNames d = true) :
    (preorderPaths (extractLayers d pp)).Nodup :=
  treeNodup_of d pp hg
    (fun l _ pp' kw' ty' hgl hndl =>
      collNodupAux (sizeOf l) l (Nat.le_refl _) pp' kw' ty' hgl hndl)

/-! ## SVG dimension normalization (`ensureSvgDimensions`,
`scripts/prerender.ts` lines 137-157)

The regular expressions of the source are unfolded: the opening-tag match
`/^(<svg\s+[^>]*)(>)/` succeeds exactly when the string starts with `<svg`
followed by a whitespace character and contains a `>`, and its first group
is everything before the first `>`; the `\swidth\s*=` test and the
`viewBox\s*=\s*["']([^"']+)["']` search scan positions left to right; the
`split(/\s+/)` splits on maximal whitespace runs, producing a leading
(trailing) empty string when the input starts (ends) with whitespace. -/

/-- Whether a candidate opening tag starts with `<svg` followed by a
whitespace character (the `<svg\s+` part of the pattern). -/
def svgTagShape (ot : List Char) : Bool :=
  decide (ot.take 4 = ['<', 's', 'v', 'g']) && decide (4 < ot.length) &&
    isJsWs (ot.getD 4 'x')

/-- The `[^>]` character class. -/
def notGt (c : Char) : Bool := c ≠ '>'

/-- `svg.match(/^(<svg\s+[^>]*)(>)/)`: the first capture group (the opening
tag without its closing `>`), when the pattern matches: the input must start
with `<svg`, a whitespace character must follow, and a `>` must occur
(`[^>]*` makes the group everything before the first `>`). -/
def matchSvgTag (s : List Char) : Option (List Char) :=
  let ot := s.takeWhile notGt
  if svgTagShape ot = true ∧ ot.length < s.length then some ot else none

/-- The `width\s*=` part of the width test, at one position. -/
def widthEqAt (l : List Char) : Bool :=
  match l with
  | 'w' :: 'i' :: 'd' :: 't' :: 'h' :: r =>
    match r.dropWhile isJsWs with
    | '=' :: _ => true
    | _ => false
  | _ => false

/-- `/\swidth\s*=/.test(openTag)`: some position carries a whitespace
character followed by `width`, optional whitespace, and `=`. -/
def hasWidthAttr : List Char → Bool
  | [] => false
  | c :: rest => (isJsWs c && widthEqAt rest) || hasWidthAttr rest

/-- The two quote characters accepted around the `viewBox` value. -/
def isQuote (c : Char) : Bool := c = '"' || c = '\''

/-- The `viewBox\s*=\s*["']([^"']+)["']` pattern at one position; returns the
capture (the quoted value). -/
def matchViewBoxAt (l : List Char) : Option (List Char) :=
  match l with
  | 'v' :: 'i' :: 'e' :: 'w' :: 'B' :: 'o' :: 'x' :: r =>
    match r.dropWhile isJsWs with
    | '=' :: r2 =>
      match r2.dropWhile isJsWs with
      | q :: r3 =>
        if isQuote q then
          let content := r3.takeWhile (fun c => !(isQuote c))
          if content.isEmpty then none
          else if (r3.drop content.length).isEmpty then none
          else some content
        else none
      | [] => none
    | _ => none
  | _ => none

/-- `openTag.match(/viewBox\s*=\s*["']([^"']+)["']/)`: first matching
position, scanning left to right. -/
def findViewBox : List Char → Option (List Char)
  | [] => none
  | c :: rest =>
    match matchViewBoxAt (c :: rest) with
    | some content => some content
    | none => findViewBox rest

/-- `split(/\s+/)` state machine: `some cur` while inside a token (with the
reversed token so far), `none` while skipping a separator run. -/
def splitWsGo : Option (List Char) → List Char → List String
  | none, [] => [""]
  | some cur, [] => [cur.reverse.asString]
  | none, c :: rest =>
    if isJsWs c then splitWsGo none rest else splitWsGo (some [c]) rest
  | some cur, c :: rest =>
    if isJsWs c then cur.reverse.asString :: splitWsGo none rest
    else splitWsGo (some (c :: cur)) rest

/-- `str.split(/\s+/)`: pieces between maximal whitespace runs, with a
leading (trailing) empty string when the string starts (ends) with
whitespace. -/
def splitWs (l : List Char) : List String := splitWsGo (some []) l

/-- The result of inserting `width`/`height` attributes at the end of the
opening tag, immediately before its closing `>` (the `svg.replace(fullMatch,
newOpenTag + closeAngle)` of the source, whose pattern is the prefix of the
input ending at the first `>`). -/
def insertDims (ot : List Char) (w h : String) (rest : List Char) : String :=
  ⟨ot ++ (" width=\"" ++ w ++ "\" height=\"" ++ h ++ "\"").data ++ '>' :: rest⟩

/-- `ensureSvgDimensions` (`scripts/prerender.ts`): add explicit
`width`/`height` attributes copied from the `viewBox`'s third and fourth
fields, when an opening `<svg` tag without a `width` attribute carries a
well-formed `viewBox`; otherwise return the input unchanged. -/
def ensureSvgDimensions (svg : String) : String :=
  match matchSvgTag svg.data with
  | none => svg
  | some openTag =>
    if hasWidthAttr openTag then svg
    else
      match findViewBox openTag with
      | none => svg
      | some content =>
        let elems := splitWs content
        match elems.get? 2, elems.get? 3 with
        | some w, some h =>
          if w = "" ∨ h = "" then svg
          else insertDims openTag w h (svg.data.drop (openTag.length + 1))
        | some _, none => svg
        | none, _ => svg

/-! ## Lemmas about `ensureSvgDimensions` -/

theorem matchSvgTag_inv (s ot : List Char) (h : matchSvgTag s = some ot) :
    ot = s.takeWhile notGt ∧ svgTagShape ot = true ∧ ot.length < s.length := by
  simp only [matchSvgTag] at h
  split at h
  · rename_i hcond
    obtain rfl : s.takeWhile notGt = ot := by injection h
    exact ⟨rfl, hcond.1, hcond.2⟩
  · exact absurd h (by simp)

theorem svgTagShape_append (ot X : List Char) (h : svgTagShape ot = true) :
    svgTagShape (ot ++ X) = true := by
  unfold svgTagShape at h ⊢
  simp only [Bool.and_eq_true, decide_eq_true_eq] at h ⊢
  obtain ⟨⟨h1, h2⟩, h3⟩ := h
  refine ⟨⟨?_, by simp; omega⟩, ?_⟩
  · rw [List.take_append_of_le_length (by omega)]
    exact h1
  · rw [List.getD_append _ _ _ _ (by omega)]
    exact h3

theorem takeWhile_length_lt (l : List Char) (h : '>' ∈ l) :
    (l.takeWhile notGt).length < l.length := by
  induction l with
  | nil => simp at h
  | cons c rest ih =>
    by_cases hc : c = '>'
    · subst hc
      rw [List.takeWhile_cons_of_neg (by simp [notGt])]
      simp
    · rw [List.takeWhile_cons_of_pos (by simp [notGt, hc])]
      rcases List.mem_cons.mp h with h' | h'
      · exact absurd h'.symm hc
      · simpa using ih h'

theorem takeWhile_gt_decomp (s : List Char)
    (h : (s.takeWhile notGt).length < s.length) :
    s = s.takeWhile notGt ++ '>' :: s.drop ((s.takeWhile notGt).length + 1) := by
  induction s with
  | nil => simp at h
  | cons c rest ih =>
    by_cases hc : c = '>'
    · subst hc
      rw [List.takeWhile_cons_of_neg (by simp [notGt])]
      simp
    · rw [List.takeWhile_cons_of_pos (by simp [notGt, hc])] at h ⊢
      simp only [List.length_cons] at h
      have := ih (by omega)
      simp only [List.length_cons, List.drop_succ_cons]
      conv_lhs => rw [this]
      simp

theorem hasWidthAttr_found (a T : List Char) :
    hasWidthAttr (a ++ ' ' :: 'w' :: 'i' :: 'd' :: 't' :: 'h' :: '=' :: T) = true := by
  induction a with
  | nil =>
    simp only [List.nil_append, hasWidthAttr, widthEqAt]
    rw [show (('=' :: T).dropWhile isJsWs) = '=' :: T by
      rw [List.dropWhile_cons_of_neg (by decide)]]
    simp [isJsWs]
  | cons c a' ih =>
    rw [List.cons_append]
    have hstep : hasWidthAttr (c :: (a' ++ ' ' :: 'w' :: 'i' :: 'd' :: 't' :: 'h' :: '=' :: T)) =
        ((isJsWs c && widthEqAt (a' ++ ' ' :: 'w' :: 'i' :: 'd' :: 't' :: 'h' :: '=' :: T)) ||
          hasWidthAttr (a' ++ ' ' :: 'w' :: 'i' :: 'd' :: 't' :: 'h' :: '=' :: T)) := rfl
    rw [hstep, ih, Bool.or_true]

theorem ensure_fixes_inserted (ot : List Char) (w h : String) (rest : List Char)
    (hshape : svgTagShape ot = true) (hno : ∀ x ∈ ot, x ≠ '>') :
    ensureSvgDimensions (insertDims ot w h rest) = insertDims ot w h rest := by
  have h8 : ((" width=\"" : String)).data = [' ', 'w', 'i', 'd', 't', 'h', '=', '"'] := rfl
  have hdata : (insertDims ot w h rest).data =
      (ot ++ [' ', 'w', 'i', 'd', 't', 'h', '=', '"']) ++
        (w.data ++ (("\" height=\"" ++ h ++ "\"").data ++ '>' :: rest)) := by
    simp [insertDims, String.data_append, h8]
  have hpos : ∀ a ∈ ot ++ [' ', 'w', 'i', 'd', 't', 'h', '=', '"'], notGt a = true := by
    intro a ha
    rcases List.mem_append.mp ha with ha | ha
    · simp [notGt, hno a ha]
    · fin_cases ha <;> decide
  have htw : (insertDims ot w h rest).data.takeWhile notGt =
      (ot ++ [' ', 'w', 'i', 'd', 't', 'h', '=', '"']) ++
        (w.data ++ (("\" height=\"" ++ h ++ "\"").data ++ '>' :: rest)).takeWhile notGt := by
    rw [hdata]
    exact List.takeWhile_append_of_pos hpos
  have hgtmem : '>' ∈ w.data ++ (("\" height=\"" ++ h ++ "\"").data ++ '>' :: rest) := by
    refine List.mem_append_right _ (List.mem_append_right _ ?_)
    exact List.mem_cons_self _ _
  have hlen : ((insertDims ot w h rest).data.takeWhile notGt).length <
      (insertDims ot w h rest).data.length := by
    rw [htw, hdata]
    have := takeWhile_length_lt _ hgtmem
    simp only [List.length_append] at this ⊢
    omega
  have hshape2 : svgTagShape ((insertDims ot w h rest).data.takeWhile notGt) = true := by
    rw [htw, List.append_assoc]
    exact svgTagShape_append ot _ hshape
  have hm : matchSvgTag (insertDims ot w h rest).data =
      some ((insertDims ot w h rest).data.takeWhile notGt) := by
    unfold matchSvgTag
    rw [if_pos ⟨hshape2, hlen⟩]
  have hwidth : hasWidthAttr ((insertDims ot w h rest).data.takeWhile notGt) = true := by
    rw [htw]
    have hre : (ot ++ [' ', 'w', 'i', 'd', 't', 'h', '=', '"']) ++
        (w.data ++ (("\" height=\"" ++ h ++ "\"").data ++ '>' :: rest)).takeWhile notGt =
        ot ++ ' ' :: 'w' :: 'i' :: 'd' :: 't' :: 'h' :: '=' ::
          ('"' :: (w.data ++ (("\" height=\"" ++ h ++ "\"").data ++ '>' :: rest)).takeWhile
            notGt) := by
      simp
    rw [hre]
    exact hasWidthAttr_found _ _
  unfold ensureSvgDimensions
  simp only [hm]
  rw [if_pos hwidth]

/-- Every run of `ensureSvgDimensions` either returns its input or returns
the insertion form. -/
theorem ensure_cases (svg : String) :
    ensureSvgDimensions svg = svg ∨
    ∃ ot w h, matchSvgTag svg.data = some ot ∧
      ensureSvgDimensions svg = insertDims ot w h (svg.data.drop (ot.length + 1)) := by
  unfold ensureSvgDimensions
  cases hm : matchSvgTag svg.data with
  | none => exact Or.inl rfl
  | some ot =>
    dsimp only
    by_cases hw : hasWidthAttr ot
    · rw [if_pos hw]
      exact Or.inl rfl
    · rw [if_neg hw]
      cases hv : findViewBox ot with
      | none => exact Or.inl rfl
      | some content =>
        dsimp only
        cases h2 : (splitWs content).get? 2 with
        | none => exact Or.inl rfl
        | some w =>
          cases h3 : (splitWs content).get? 3 with
          | none => exact Or.inl rfl
          | some h =>
            dsimp only
            by_cases hwh : w = "" ∨ h = ""
            · rw [if_pos hwh]
              exact Or.inl rfl
            · rw [if_neg hwh]
              exact Or.inr ⟨ot, w, h, rfl, rfl⟩

/-! ## Import resolution (`buildFileSystem` / `processFile`,
`scripts/prerender.ts` lines 68-130)

Paths are modelled as plain strings: `resolve` is the identity (the paths
fed through the model are already normalized and absolute, with no `.` or
`..` segments), `join` concatenates with a `/`, `dirname` drops the last
`/`-separated segment, and `relative` strips the base-directory prefix.
The on-disk filesystem is an association list from absolute path to
content; `readFile`/`access` become lookups in it. The import-reference
scan `/(?:\.\.\.)?@([^\s\n;{}]+)/g` is a character-level scan collecting,
after each `@`, the maximal nonempty run of characters outside the
excluded class (the optional `...` prefix does not affect the capture).
The recursion of `processFile` is driven by fuel; the source terminates
because every recursive call processes a path that exists on disk and was
not processed before, so a fuel of one more than the number of disk files
is enough. -/

/-- The `[^\s\n;{}]` character class of the import pattern. -/
def isRefChar (c : Char) : Bool :=
  !(isJsWs c || c = ';' || c = '{' || c = '}')

/-- Scanner for `/(?:\.\.\.)?@([^\s\n;{}]+)/g`: `some acc` holds the
(reversed) reference characters read since the last `@`. -/
def scanGo : Option (List Char) → List Char → List String
  | none, [] => []
  | some acc, [] => if acc.isEmpty then [] else [acc.reverse.asString]
  | none, c :: rest => if c = '@' then scanGo (some []) rest else scanGo none rest
  | some acc, c :: rest =>
    if isRefChar c then scanGo (some (c :: acc)) rest
    else if acc.isEmpty then scanGo none rest
    else acc.reverse.asString :: scanGo none rest

/-- All import references of a file's content, in order. -/
def scanImports (content : List Char) : List String := scanGo none content

/-- `path.dirname`: the part before the last `/` (`.` when there is no `/`,
`/` when the last `/` is the leading one). -/
def dirname (p : String) : String :=
  match p.data.reverse.dropWhile (fun c => c ≠ '/') with
  | [] => "."
  | ['/'] => "/"
  | _ :: rest => rest.reverse.asString

/-- `path.join` of a directory and a relative reference (no normalization:
the references used here contain no `.`/`..` segments). -/
def joinPath (a b : String) : String := a ++ "/" ++ b

/-- `path.relative(base, p)` for `p` lying under `base`: strip the
`base ++ "/"` prefix. -/
def relPath (base p : String) : String :=
  if (base ++ "/").data.isPrefixOf p.data then
    (p.data.drop (base.data.length + 1)).asString
  else p

/-- The on-disk filesystem: `readFile` (and `access`) as association-list
lookup. -/
def diskRead (disk : List (String × String)) (p : String) : Option String :=
  (disk.find? (fun e => e.1 = p)).map (fun e => e.2)

/-- The mutable state of `buildFileSystem`: the `fs` mapping under
construction (in insertion order) and the `processed` set. -/
structure FsState where
  fs : List (String × String)
  processed : List String
deriving Repr, DecidableEq

/-- `processFile` (`scripts/prerender.ts`): skip already-processed paths,
read the file (a failed read warns and returns), store the content under
the base-relative path, then for each `@`-reference resolve it against the
referencing file's directory with `.d2` appended when missing; when that
path does not exist, retry once with the extensionless path; when that
also fails, warn and continue with the next reference. -/
def processFile (disk : List (String × String)) (baseDir : String) :
    Nat → FsState → String → FsState
  | 0, st, _ => st
  | fuel + 1, st, filePath =>
    let normalizedPath := filePath
    if normalizedPath ∈ st.processed then st
    else
      match diskRead disk normalizedPath with
      | none => ⟨st.fs, normalizedPath :: st.processed⟩
      | some content =>
        let relativePath := relPath baseDir normalizedPath
        (scanImports content.data).foldl
          (fun stAcc importRef =>
            let currentDir := dirname normalizedPath
            let importPath0 := joinPath currentDir importRef
            let importPath :=
              if strEndsWith importPath0 ".d2" then importPath0
              else importPath0 ++ ".d2"
            if (diskRead disk importPath).isSome then
              processFile disk baseDir fuel stAcc importPath
            else
              let altPath := joinPath currentDir importRef
              if (diskRead disk altPath).isSome then
                processFile disk baseDir fuel stAcc altPath
              else stAcc)
          ⟨st.fs ++ [(relativePath, content)], normalizedPath :: st.processed⟩

/-- `buildFileSystem` (`scripts/prerender.ts`): resolve the import graph
from the entry file. -/
def buildFileSystem (disk : List (String × String)) (entryPath : String) :
    List (String × String) :=
  (processFile disk (dirname entryPath) (disk.length + 1) ⟨[], []⟩ entryPath).fs

/-- Modelled from the spec: the import resolver as claim C4 describes it,
whose failed reference is "retried exactly once against an alternate,
root-relative interpretation of the reference" — the retry resolves the
reference against the base directory (with the same default-extension
rule) instead of the referencing file's directory. Only the retry differs
from `processFile`. -/
def processFileRootRetry (disk : List (String × String)) (baseDir : String) :
    Nat → FsState → String → FsState
  | 0, st, _ => st
  | fuel + 1, st, filePath =>
    let normalizedPath := filePath
    if normalizedPath ∈ st.processed then st
    else
      match diskRead disk normalizedPath with
      | none => ⟨st.fs, normalizedPath :: st.processed⟩
      | some content =>
        let relativePath := relPath baseDir normalizedPath
        (scanImports content.data).foldl
          (fun stAcc importRef =>
            let currentDir := dirname normalizedPath
            let importPath0 := joinPath currentDir importRef
            let importPath :=
              if strEndsWith importPath0 ".d2" then importPath0
              else importPath0 ++ ".d2"
            if (diskRead disk importPath).isSome then
              processFileRootRetry disk baseDir fuel stAcc importPath
            else
              let altPath0 := joinPath baseDir importRef
              let altPath :=
                if strEndsWith altPath0 ".d2" then altPath0
                else altPath0 ++ ".d2"
              if (diskRead disk altPath).isSome then
                processFileRootRetry disk baseDir fuel stAcc altPath
              else stAcc)
          ⟨st.fs ++ [(relativePath, content)], normalizedPath :: st.processed⟩

/-- The root-relative-retry resolver, from the entry file. -/
def buildFileSystemRootRetry (disk : List (String × String)) (entryPath : String) :
    List (String × String) :=
  (processFileRootRetry disk (dirname entryPath) (disk.length + 1) ⟨[], []⟩ entryPath).fs

/-- The three-file disk separating the two retry interpretations: the entry
references `sub/c`, which references `b`; `b.d2` exists at the root but not
next to `sub/c`. -/
def diskRetry : List (String × String) :=
  [("/r/a.d2", "...@sub/c"), ("/r/sub/c.d2", "...@b"), ("/r/b.d2", "bee")]

/-- The two-file graph of the claim: the entry references a `b` that exists
nowhere. -/
def diskTwoFile : List (String × String) := [("/r/a.d2", "...@b")]

/-! ## HTML generation (`generateHtml` / `escapeHtml`,
`scripts/prerender.ts` lines 162-192)

`JSON.stringify` is modelled for the payload type `{title, layers, svgs}`:
object properties in insertion order, strings with the standard JSON
escapes (quote, backslash, control characters). The `.replace(...)` chains
of the source are modelled by `replChar` (global single-character
replacement). -/

/-- The embedded payload `{title: string, layers: LayerNode[], svgs:
Record<string, string>}`; the record is kept in insertion order. -/
structure D2DiagramData where
  title : String
  layers : List LayerNode
  svgs : List (String × String)

/-- The `type` field's serialized value. -/
def NType.toStr : NType → String
  | .layer => "layer"
  | .scenario => "scenario"
  | .step => "step"

/-- Lowercase hexadecimal digit. -/
def hexDigit (n : Nat) : Char :=
  if n < 10 then Char.ofNat ('0'.toNat + n) else Char.ofNat ('a'.toNat + n - 10)

/-- `JSON.stringify` escaping of one string character. -/
def jsonEscChar (c : Char) : List Char :=
  if c = '"' then ['\\', '"']
  else if c = '\\' then ['\\', '\\']
  else if c = '\x08' then ['\\', 'b']
  else if c = '\t' then ['\\', 't']
  else if c = '\n' then ['\\', 'n']
  else if c = '\x0c' then ['\\', 'f']
  else if c = '\r' then ['\\', 'r']
  else if c.toNat < 32 then
    ['\\', 'u', '0', '0', hexDigit (c.toNat / 16), hexDigit (c.toNat % 16)]
  else [c]

/-- A serialized JSON string. -/
def jsonStr (s : String) : List Char :=
  '"' :: (s.data.flatMap jsonEscChar ++ ['"'])

mutual

/-- `JSON.stringify` of one `LayerNode` (properties in declaration order;
`title` present only when the node carries one). -/
def jsonNode : LayerNode → List Char
  | .mk n p ty ti ch =>
    '{' :: ("\"name\":".data ++ jsonStr n ++
      (",\"path\":".data ++ jsonStr p ++
        (",\"type\":".data ++ jsonStr ty.toStr ++
          ((match ti with
            | none => []
            | some t => ",\"title\":".data ++ jsonStr t) ++
            (",\"children\":".data ++ jsonArr ch ++ ['}'])))))

/-- `JSON.stringify` of a `LayerNode` array. -/
def jsonArr : List LayerNode → List Char
  | [] => ['[', ']']
  | n :: rest => '[' :: (jsonNode n ++ jsonArrTail rest)

/-- Remaining elements of a serialized array. -/
def jsonArrTail : List LayerNode → List Char
  | [] => [']']
  | n :: rest => ',' :: (jsonNode n ++ jsonArrTail rest)

end

/-- Remaining entries of a serialized string-valued object. -/
def jsonObjTail : List (String × String) → List Char
  | [] => ['}']
  | (k, v) :: rest => ',' :: (jsonStr k ++ ':' :: jsonStr v ++ jsonObjTail rest)

/-- `JSON.stringify` of a string-valued record, in insertion order. -/
def jsonObj : List (String × String) → List Char
  | [] => ['{', '}']
  | (k, v) :: rest => '{' :: (jsonStr k ++ ':' :: jsonStr v ++ jsonObjTail rest)

/-- `JSON.stringify(data)` for the payload. -/
def jsonData (d : D2DiagramData) : List Char :=
  '{' :: ("\"title\":".data ++ jsonStr d.title ++
    (",\"layers\":".data ++ jsonArr d.layers ++
      (",\"svgs\":".data ++ jsonObj d.svgs ++ ['}'])))

/-- The serialized payload's escaping chain: replace every `<` by the six
characters `<`, then every `>` by `>`, then every `&` by
`&`. -/
def escapePayload (l : List Char) : List Char :=
  replChar '&' "\\u0026".data (replChar '>' "\\u003e".data (replChar '<' "\\u003c".data l))

/-- `escapeHtml` (`scripts/prerender.ts`): entity-escape `&`, `<`, `>`, `"`
(ampersands first). -/
def escapeHtml (s : String) : String :=
  ⟨replChar '"' "&quot;".data
    (replChar '>' "&gt;".data
      (replChar '<' "&lt;".data
        (replChar '&' "&amp;".data s.data)))⟩

/-- The document template up to the interpolated title. -/
def htmlTop : String :=
  "<!DOCTYPE html>\n<html lang=\"en\">\n<head>\n  <meta charset=\"UTF-8\">\n  <meta name=\"viewport\" content=\"width=device-width, initial-scale=1.0\">\n  <title>"

/-- The document template between the title and the embedded payload. -/
def htmlMid : String :=
  "</title>\n  <style>body \x7b background: #1a1a1a; margin: 0; \x7d</style>\n</head>\n<body>\n  <div id=\"app\"></div>\n  <script>\n    window.D2_DIAGRAM = "

/-- The document template after the embedded payload. -/
def htmlBottom : String :=
  ";\n  </script>\n  <script src=\"https://alan-roe.github.io/d2-viewer/d2-viewer.js\"></script>\n</body>\n</html>"

/-- `generateHtml` (`scripts/prerender.ts`): the template with the
entity-escaped title in the head and the unicode-escaped serialized payload
in the script block. -/
def generateHtml (data : D2DiagramData) : String :=
  htmlTop ++ escapeHtml data.title ++ htmlMid ++
    String.mk (escapePayload (jsonData data)) ++ htmlBottom

/-- The per-character effect of the payload escaping chain. -/
def payloadEscMap (c : Char) : List Char :=
  if c = '<' then "\\u003c".data
  else if c = '>' then "\\u003e".data
  else if c = '&' then "\\u0026".data
  else [c]

/-- The per-character effect of `escapeHtml`. -/
def htmlEscMap (c : Char) : List Char :=
  if c = '&' then "&amp;".data
  else if c = '<' then "&lt;".data
  else if c = '>' then "&gt;".data
  else if c = '"' then "&quot;".data
  else [c]

/-! ## Export control flow (`main`, `scripts/prerender.ts` lines 195-284)

The sequential `await`/`try`-rethrow control flow of `main` after the
import-resolution step is modelled over an abstract compiler and renderer
(the external `d2.compile` / `d2.render` collaborators), as the list of
`writeFile` events it performs paired with the propagated error, if any:
compile, render the root, render each flattened target in order (each
`catch` block rethrows, so the first error aborts), and only then write
the generated document once. -/

/-- The render loop over the flattened targets: stops at the first error,
otherwise collects `svgs[target] = ensureSvgDimensions(svg)` entries in
order. -/
def renderAll {E : Type} (render : String → Except E String) :
    List String → Except E (List (String × String))
  | [] => .ok []
  | t :: ts =>
    match render t with
    | .error e => .error e
    | .ok svg =>
      match renderAll render ts with
      | .error e => .error e
      | .ok rest => .ok ((t, ensureSvgDimensions svg) :: rest)

/-- `main` (`scripts/prerender.ts`) after import resolution: the list of
output-file writes performed, and the propagated error, if any. -/
def mainModel {E : Type} (compile : Except E Diagram)
    (render : Diagram → String → Except E String)
    (outputPath title : String) : List (String × String) × Option E :=
  match compile with
  | .error e => ([], some e)
  | .ok diagram =>
    let layers := extractLayers diagram ""
    let targets := flattenTargets layers
    match render diagram "" with
    | .error e => ([], some e)
    | .ok rootSvg =>
      match renderAll (render diagram) targets with
      | .error e => ([], some e)
      | .ok svgPairs =>
        ([(outputPath,
            generateHtml ⟨title, layers, ("", ensureSvgDimensions rootSvg) :: svgPairs⟩)],
          none)

/-! ## Concrete inputs and the specification-side first-line extractor -/

/-- A diagram whose title shape carries the two-line label `a\nb` with no
markdown or heading marker. -/
def dTitled : Diagram :=
  .mk "t" (some [Shape.mk "title" (some "a\nb")]) none none none

/-- The extraction the specification describes for a label without markers
(modelled from the claim's words): the first non-empty line of the label,
trimmed, or the raw label when no line is non-empty. -/
def specFirstNonEmptyLine (label : String) : String :=
  match (label.data.splitOn '\n').find? (fun line => !(jsTrimList line).isEmpty) with
  | some line => (jsTrimList line).asString
  | none => label

/-! ## Claim theorems -/

/-- Claim C4 (counterexample). On the three-file disk `diskRetry` (the entry
references `sub/c`, which references `b`; `b.d2` exists at the root but not
next to `sub/c`), the code abandons the reference: its retry consults the
extensionless path next to the referencing file, not a root-relative
interpretation, so the root-level `b.d2` is not picked up — the claimed
root-relative resolver would include it. -/
theorem buildFileSystem_retry_counterexample :
    buildFileSystem diskRetry "/r/a.d2" =
      [("a.d2", "...@sub/c"), ("sub/c.d2", "...@b")] ∧
    buildFileSystemRootRetry diskRetry "/r/a.d2" =
      [("a.d2", "...@sub/c"), ("sub/c.d2", "...@b"), ("b.d2", "bee")] ∧
    buildFileSystem diskRetry "/r/a.d2" ≠ buildFileSystemRootRetry diskRetry "/r/a.d2" :=
  ⟨by decide, by decide, by decide⟩

/-- Claim C4 (amended). During `buildFileSystem`, an import reference that
fails to resolve at the path computed relative to the referencing file's
directory (with the default `.d2` extension appended) is retried exactly
once against the same directory-relative path without the extension; if
that also fails, the reference is abandoned with a non-fatal warning and
traversal continues with the state otherwise unchanged — in particular a
two-file graph where file A references nonexistent file B via `...@b`
yields a file set containing only A, with no exception raised. -/
theorem processFile_retry (disk : List (String × String)) (baseDir : String)
    (fuel : Nat) (st : FsState) (filePath content r : String)
    (hproc : filePath ∉ st.processed)
    (hread : diskRead disk filePath = some content)
    (hscan : scanImports content.data = [r])
    (hprimary : diskRead disk
      (if strEndsWith (joinPath (dirname filePath) r) ".d2" then
        joinPath (dirname filePath) r
      else joinPath (dirname filePath) r ++ ".d2") = none) :
    (diskRead disk (joinPath (dirname filePath) r) ≠ none →
      processFile disk baseDir (fuel + 1) st filePath =
        processFile disk baseDir fuel
          ⟨st.fs ++ [(relPath baseDir filePath, content)], filePath :: st.processed⟩
          (joinPath (dirname filePath) r)) ∧
    (diskRead disk (joinPath (dirname filePath) r) = none →
      processFile disk baseDir (fuel + 1) st filePath =
        ⟨st.fs ++ [(relPath baseDir filePath, content)], filePath :: st.processed⟩) := by
  have hstep : processFile disk baseDir (fuel + 1) st filePath =
      (scanImports content.data).foldl
        (fun stAcc importRef =>
          let currentDir := dirname filePath
          let importPath0 := joinPath currentDir importRef
          let importPath :=
            if strEndsWith importPath0 ".d2" then importPath0
            else importPath0 ++ ".d2"
          if (diskRead disk importPath).isSome then
            processFile disk baseDir fuel stAcc importPath
          else
            let altPath := joinPath currentDir importRef
            if (diskRead disk altPath).isSome then
              processFile disk baseDir fuel stAcc altPath
            else stAcc)
        ⟨st.fs ++ [(relPath baseDir filePath, content)], filePath :: st.processed⟩ := by
    rw [processFile]
    rw [if_neg hproc]
    simp only [hread]
  rw [hstep, hscan, List.foldl_cons, List.foldl_nil]
  constructor <;> intro halt
  · rw [if_neg (by simp [hprimary]), if_pos (by simpa [Option.isSome_iff_ne_none] using halt)]
  · rw [if_neg (by simp [hprimary]), if_neg (by simp [halt])]

/-- Witness for the amended C4 theorem: the two-file graph of the claim. -/
theorem processFile_retry_witness :
    processFile diskTwoFile "/r" 2 ⟨[], []⟩ "/r/a.d2" =
      ⟨[("a.d2", "...@b")], ["/r/a.d2"]⟩ ∧
    buildFileSystem diskTwoFile "/r/a.d2" = [("a.d2", "...@b")] := by
  have h := (processFile_retry diskTwoFile "/r" 1 ⟨[], []⟩ "/r/a.d2" "...@b" "b"
    (by decide) (by decide) (by decide) (by decide)).2 (by decide)
  have h2 : processFile diskTwoFile "/r" (1 + 1) ⟨[], []⟩ "/r/a.d2" =
      ⟨[("a.d2", "...@b")], ["/r/a.d2"]⟩ := h.trans (by decide)
  refine ⟨h2, ?_⟩
  unfold buildFileSystem
  rw [show dirname "/r/a.d2" = "/r" by decide]
  exact congrArg FsState.fs h2

/-! ### Lemmas about character replacement -/

theorem not_mem_replChar_self {c : Char} {rep l : List Char} (h : c ∉ rep) :
    c ∉ replChar c rep l := by
  intro hm
  unfold replChar at hm
  rcases List.mem_flatMap.mp hm with ⟨x, -, hmem⟩
  by_cases hx : x = c
  · rw [if_pos hx] at hmem
    exact h hmem
  · rw [if_neg hx] at hmem
    exact hx (List.mem_singleton.mp hmem).symm

theorem not_mem_replChar_other {c' c : Char} {rep l : List Char}
    (h1 : c' ∉ rep) (h2 : c' ∉ l) : c' ∉ replChar c rep l := by
  intro hm
  unfold replChar at hm
  rcases List.mem_flatMap.mp hm with ⟨x, hx, hmem⟩
  by_cases hxc : x = c
  · rw [if_pos hxc] at hmem
    exact h1 hmem
  · rw [if_neg hxc] at hmem
    exact h2 ((List.mem_singleton.mp hmem) ▸ hx)

theorem replChar_cons (c : Char) (rep : List Char) (x : Char) (l : List Char) :
    replChar c rep (x :: l) = (if x = c then rep else [x]) ++ replChar c rep l := by
  simp [replChar]

theorem escapePayload_eq_flatMap (l : List Char) :
    escapePayload l = l.flatMap payloadEscMap := by
  unfold escapePayload replChar
  rw [List.flatMap_assoc, List.flatMap_assoc]
  refine List.flatMap_congr ?_
  intro x _
  by_cases h1 : x = '<'
  · subst h1; decide
  · by_cases h2 : x = '>'
    · subst h2; decide
    · by_cases h3 : x = '&'
      · subst h3; decide
      · simp [payloadEscMap, h1, h2, h3]

theorem escapeHtml_eq_flatMap (l : List Char) :
    replChar '"' ("&quot;" : String).data
      (replChar '>' ("&gt;" : String).data
        (replChar '<' ("&lt;" : String).data
          (replChar '&' ("&amp;" : String).data l))) = l.flatMap htmlEscMap := by
  unfold replChar
  rw [List.flatMap_assoc, List.flatMap_assoc, List.flatMap_assoc]
  refine List.flatMap_congr ?_
  intro x _
  by_cases h1 : x = '&'
  · subst h1; decide
  · by_cases h2 : x = '<'
    · subst h2; decide
    · by_cases h3 : x = '>'
      · subst h3; decide
      · by_cases h4 : x = '"'
        · subst h4; decide
        · simp [htmlEscMap, h1, h2, h3, h4]

/-- Claim C5. `ensureSvgDimensions` returns the input byte-for-byte unchanged
when the matched opening tag already carries a width attribute; when the
opening `<svg` tag is matched, carries no width attribute, and carries a
`viewBox` whose third and fourth fields exist and are nonempty, it returns
the input with ` width="w" height="h"` (copied from those fields) inserted
immediately before the tag's closing angle bracket (the input decomposes as
`openTag ++ '>' :: rest` and the output as the widened tag followed by
`'>' :: rest`); in every other case (outer tag not matched, or no viewBox)
it returns the input unchanged — and, being a total function, it never
raises. -/
theorem ensureSvgDimensions_spec (svg : String) :
    (matchSvgTag svg.data = none → ensureSvgDimensions svg = svg) ∧
    (∀ ot, matchSvgTag svg.data = some ot → hasWidthAttr ot = true →
      ensureSvgDimensions svg = svg) ∧
    (∀ ot, matchSvgTag svg.data = some ot → hasWidthAttr ot = false →
      findViewBox ot = none → ensureSvgDimensions svg = svg) ∧
    (∀ ot vb w h, matchSvgTag svg.data = some ot → hasWidthAttr ot = false →
      findViewBox ot = some vb → (splitWs vb).get? 2 = some w →
      (splitWs vb).get? 3 = some h → w ≠ "" → h ≠ "" →
      svg.data = ot ++ '>' :: svg.data.drop (ot.length + 1) ∧
      ensureSvgDimensions svg = insertDims ot w h (svg.data.drop (ot.length + 1))) := by
  refine ⟨?_, ?_, ?_, ?_⟩
  · intro hnone
    unfold ensureSvgDimensions
    simp only [hnone]
  · intro ot hm hw
    unfold ensureSvgDimensions
    simp only [hm]
    rw [if_pos hw]
  · intro ot hm hw hv
    unfold ensureSvgDimensions
    simp only [hm, hw, Bool.false_eq_true, if_false, hv]
  · intro ot vb w h hm hw hv h2 h3 hw0 hh0
    constructor
    · obtain ⟨hot, -, hlen⟩ := matchSvgTag_inv _ _ hm
      rw [hot] at hlen ⊢
      exact takeWhile_gt_decomp svg.data hlen
    · unfold ensureSvgDimensions
      simp only [hm, hw, Bool.false_eq_true, if_false, hv]
      simp only [h2, h3]
      rw [if_neg (by push_neg; exact ⟨hw0, hh0⟩)]

/-- Witness for the C5 theorem: the claim's concrete examples — a `viewBox`
of `0 0 120 80` with no width attribute gains `width="120" height="80"`,
and an input that already carries a width attribute is returned
byte-for-byte unchanged. -/
theorem ensureSvgDimensions_spec_witness :
    ensureSvgDimensions "<svg viewBox=\"0 0 120 80\">x</svg>" =
      "<svg viewBox=\"0 0 120 80\" width=\"120\" height=\"80\">x</svg>" ∧
    ensureSvgDimensions "<svg width=\"5\" viewBox=\"0 0 9 9\">y</svg>" =
      "<svg width=\"5\" viewBox=\"0 0 9 9\">y</svg>" := by
  constructor
  · obtain ⟨-, he⟩ :=
      (ensureSvgDimensions_spec "<svg viewBox=\"0 0 120 80\">x</svg>").2.2.2
        ("<svg viewBox=\"0 0 120 80\"" : String).data ("0 0 120 80" : String).data
        "120" "80" (by decide) (by decide) (by decide) (by decide) (by decide)
        (by decide) (by decide)
    rw [he]
    decide
  · exact (ensureSvgDimensions_spec "<svg width=\"5\" viewBox=\"0 0 9 9\">y</svg>").2.1
      ("<svg width=\"5\" viewBox=\"0 0 9 9\"" : String).data (by decide) (by decide)

/-- Claim C6. `ensureSvgDimensions` is idempotent: applying it twice yields
the same result as applying it once (inserting the attributes puts a
`width=` occurrence into the opening tag, so a second pass returns its
input unchanged). -/
theorem ensureSvgDimensions_idem (svg : String) :
    ensureSvgDimensions (ensureSvgDimensions svg) = ensureSvgDimensions svg := by
  rcases ensure_cases svg with he | ⟨ot, w, h, hm, he⟩
  · rw [he, he]
  · rw [he]
    obtain ⟨hot, hshape, -⟩ := matchSvgTag_inv _ _ hm
    refine ensure_fixes_inserted _ _ _ _ hshape ?_
    intro x hx
    rw [hot] at hx
    have := List.mem_takeWhile_imp hx
    simpa [notGt] using this

/-- Claim C8. The serialized payload embedded by `generateHtml` contains no
literal `<`, `>` or `&` character: the escaping chain acts per character,
replacing each of them by its unicode escape (`<`, `>`,
`&`); and the title interpolated into the document head is
HTML-entity-escaped for `&`, `<`, `>` and `"` (each mapped to its entity,
per character), so its interpolation contains no literal `<`, `>` or `"` —
in particular a title containing `<script>` can never appear as a raw tag.
`generateHtml` is exactly the template around these two escaped pieces. -/
theorem generateHtml_escapes (data : D2DiagramData) :
    ('<' ∉ escapePayload (jsonData data) ∧ '>' ∉ escapePayload (jsonData data) ∧
      '&' ∉ escapePayload (jsonData data)) ∧
    escapePayload (jsonData data) = (jsonData data).flatMap payloadEscMap ∧
    (escapeHtml data.title).data = data.title.data.flatMap htmlEscMap ∧
    ('<' ∉ (escapeHtml data.title).data ∧ '>' ∉ (escapeHtml data.title).data ∧
      '"' ∉ (escapeHtml data.title).data) ∧
    generateHtml data =
      htmlTop ++ escapeHtml data.title ++ htmlMid ++
        String.mk (escapePayload (jsonData data)) ++ htmlBottom := by
  refine ⟨⟨?_, ?_, ?_⟩, escapePayload_eq_flatMap _, escapeHtml_eq_flatMap _, ⟨?_, ?_, ?_⟩, rfl⟩
  · exact not_mem_replChar_other (by decide)
      (not_mem_replChar_other (by decide) (not_mem_replChar_self (by decide)))
  · exact not_mem_replChar_other (by decide) (not_mem_replChar_self (by decide))
  · exact not_mem_replChar_self (by decide)
  · exact not_mem_replChar_other (by decide)
      (not_mem_replChar_other (by decide) (not_mem_replChar_self (by decide)))
  · exact not_mem_replChar_other (by decide) (not_mem_replChar_self (by decide))
  · exact not_mem_replChar_self (by decide)

/-- Renders of a target list fail exactly when the render of some listed
target fails. -/
theorem renderAll_error_iff {E : Type} (render : String → Except E String)
    (ts : List String) :
    (∃ e, renderAll render ts = Except.error e) ↔
      ∃ t ∈ ts, ∃ e, render t = Except.error e := by
  induction ts with
  | nil => simp [renderAll]
  | cons t ts ih =>
    rw [renderAll]
    cases hr : render t with
    | error e => simp [hr]
    | ok svg =>
      cases hra : renderAll render ts with
      | error e =>
        simp only [List.mem_cons]
        constructor
        · intro _
          have := ih.mp ⟨e, hra⟩
          obtain ⟨t', ht', he⟩ := this
          exact ⟨t', Or.inr ht', he⟩
        · intro _
          exact ⟨e, rfl⟩
      | ok rest =>
        simp only [List.mem_cons]
        constructor
        · rintro ⟨e, he⟩
          exact absurd he (by simp)
        · rintro ⟨t', ht' | ht', e, he⟩
          · rw [ht', hr] at he
            exact absurd he (by simp)
          · exact absurd (ih.mpr ⟨t', ht', e, he⟩) (by simp [hra])

/-- Claim C9. If compilation fails, or rendering the root fails, or
rendering any flattened target fails, `main` performs no output-file write
and propagates the triggering error to the invoker; the output file is
written (exactly once, with the generated document) only when compilation
and every render have succeeded. -/
theorem main_no_partial_output {E : Type} (compile : Except E Diagram)
    (render : Diagram → String → Except E String) (outputPath title : String) :
    (∀ e, compile = .error e →
      mainModel compile render outputPath title = ([], some e)) ∧
    (∀ diagram e, compile = .ok diagram → render diagram "" = .error e →
      mainModel compile render outputPath title = ([], some e)) ∧
    (∀ diagram rootSvg e, compile = .ok diagram → render diagram "" = .ok rootSvg →
      renderAll (render diagram) (flattenTargets (extractLayers diagram "")) = .error e →
      mainModel compile render outputPath title = ([], some e)) ∧
    (∀ diagram rootSvg svgPairs, compile = .ok diagram →
      render diagram "" = .ok rootSvg →
      renderAll (render diagram) (flattenTargets (extractLayers diagram "")) =
        .ok svgPairs →
      mainModel compile render outputPath title =
        ([(outputPath,
            generateHtml ⟨title, extractLayers diagram "",
              ("", ensureSvgDimensions rootSvg) :: svgPairs⟩)], none)) ∧
    (∀ diagram,
      (∃ e, renderAll (render diagram)
          (flattenTargets (extractLayers diagram "")) = .error e) ↔
        ∃ t ∈ flattenTargets (extractLayers diagram ""), ∃ e,
          render diagram t = .error e) := by
  refine ⟨?_, ?_, ?_, ?_, fun diagram => renderAll_error_iff (render diagram) _⟩
  · intro e hc
    unfold mainModel
    rw [hc]
  · intro diagram e hc hr
    unfold mainModel
    rw [hc]
    dsimp only
    rw [hr]
  · intro diagram rootSvg e hc hr hra
    unfold mainModel
    rw [hc]
    dsimp only
    rw [hr]
    dsimp only
    rw [hra]
  · intro diagram rootSvg svgPairs hc hr hra
    unfold mainModel
    rw [hc]
    dsimp only
    rw [hr]
    dsimp only
    rw [hra]

/-- Witness for the C9 theorem: a failing compile yields the error and no
write; a successful compile of the childless diagram `dTimeout` with a
constant renderer yields exactly one write. -/
theorem main_no_partial_output_witness :
    mainModel (Except.error "boom") (fun _ _ => Except.ok "s") "out.html" "t" =
      ([], some "boom") ∧
    mainModel (Except.ok dTimeout : Except String Diagram) (fun _ _ => Except.ok "s")
        "out.html" "t" =
      ([("out.html",
          generateHtml ⟨"t", extractLayers dTimeout "",
            ("", ensureSvgDimensions "s") :: []⟩)], none) := by
  constructor
  · exact (main_no_partial_output (Except.error "boom") (fun _ _ => Except.ok "s")
      "out.html" "t").1 "boom" rfl
  · refine (main_no_partial_output (Except.ok dTimeout) (fun _ _ => Except.ok "s")
      "out.html" "t").2.2.2.1 dTimeout "s" [] rfl rfl ?_
    have : flattenTargets (extractLayers dTimeout "") = [] := by
      simp [dTimeout, extractLayers, extractOpt, flattenTargets, traverseAcc]
    rw [this, renderAll]

/-- Claim C7 (counterexample). On the diagram whose title shape has label
`a\nb` (which neither begins with the markdown marker `|md` nor contains the
heading marker `#`), `extractTitle` returns the raw label `a\nb`, not the
first non-empty line `a` that the claim prescribes. -/
theorem extractTitle_raw_counterexample :
    extractTitle dTitled = some "a\nb" ∧
    specFirstNonEmptyLine "a\nb" = "a" ∧
    ("a\nb" : String) ≠ "a" := by
  refine ⟨rfl, by decide, by decide⟩

/-- Claim C7 (amended). For every node whose matched title shape has a label
that neither begins with the markdown marker `|md` nor contains the heading
marker `#`, the extracted title is the raw label, unchanged (the
first-non-empty-line fallback applies only to labels carrying a marker). -/
theorem extractTitle_raw_label (d : Diagram) (s : Shape) (label : String)
    (hfind : (d.shapes.getD []).find? isTitleShape = some s)
    (hlab : s.label = some label)
    (h1 : startsWithMd label = false) (h2 : containsHash label = false) :
    extractTitle d = some label := by
  unfold extractTitle
  simp only [hfind, hlab, h1, h2, Bool.or_self, Bool.false_eq_true, if_false]

/-- Witness for the amended C7 theorem at the concrete diagram `dTitled`. -/
theorem extractTitle_raw_label_witness : extractTitle dTitled = some "a\nb" :=
  extractTitle_raw_label dTitled (Shape.mk "title" (some "a\nb")) "a\nb"
    (by decide) rfl (by decide) (by decide)

/-- Claim C1 (counterexample). On the diagram whose root-level layer `auth`
has the scenario `timeout` nested under it, `extractLayers` assigns the
nested scenario the path `layers.auth.timeout`: the collection keyword
`scenarios` does **not** appear as a segment of the nested node's path, so
the path is not `layers.auth.scenarios.timeout`. -/
theorem extractLayers_nested_keyword_counterexample :
    extractLayers dRootC1 "" =
      [LayerNode.mk "auth" "layers.auth" NType.layer none
        [LayerNode.mk "timeout" "layers.auth.timeout" NType.scenario none []]] ∧
    ("layers.auth.timeout" : String) ≠ "layers.auth.scenarios.timeout" := by
  constructor
  · simp [dRootC1, dAuth, dTimeout, extractLayers, extractOpt, extractColl, childPath,
      titleField, extractTitle, Diagram.shapes, Diagram.name]
  · decide

/-- Claim C1 (amended). For every compiled diagram containing a root-level
layer named `auth` with a scenario named `timeout` nested under it,
`extractLayers` assigns path `layers.auth` to the layer node and path
`layers.auth.timeout` to the nested scenario node: the collection keyword is
used as the path's leading segment only for root-level nodes, and nested
nodes append their bare name to the parent path. -/
theorem extractLayers_auth_timeout_paths (d A T : Diagram)
    (lL lS : List (Option Diagram))
    (h1 : d.layers = some lL) (h2 : some A ∈ lL) (hA : A.name = "auth")
    (h3 : A.scenarios = some lS) (h4 : some T ∈ lS) (hT : T.name = "timeout") :
    ∃ n ∈ extractLayers d "", n.path = "layers.auth" ∧
      ∃ c ∈ n.children, c.path = "layers.auth.timeout" := by
  refine ⟨LayerNode.mk A.name (childPath "" "layers" A.name) NType.layer (titleField A)
    (extractLayers A (childPath "" "layers" A.name)), ?_, ?_, ?_⟩
  · rw [extractLayers_eq, h1]
    rw [extractOpt]
    exact List.mem_append_left _ (List.mem_append_left _ (mem_extractColl _ _ _ _ _ h2))
  · simp [LayerNode.path, childPath, hA]
  · refine ⟨LayerNode.mk T.name (childPath (childPath "" "layers" A.name) "scenarios" T.name)
      NType.scenario (titleField T)
      (extractLayers T (childPath (childPath "" "layers" A.name) "scenarios" T.name)), ?_, ?_⟩
    · simp only [LayerNode.children]
      rw [extractLayers_eq, h3, extractOpt]
      exact List.mem_append_left _
        (List.mem_append_right _ (mem_extractColl _ _ _ _ _ h4))
    · simp [LayerNode.path, childPath, hA, hT]

/-- Witness for the amended C1 theorem at the concrete diagram `dRootC1`. -/
theorem extractLayers_auth_timeout_paths_witness :
    ∃ n ∈ extractLayers dRootC1 "", n.path = "layers.auth" ∧
      ∃ c ∈ n.children, c.path = "layers.auth.timeout" :=
  extractLayers_auth_timeout_paths dRootC1 dAuth dTimeout [some dAuth] [some dTimeout]
    rfl (by simp) rfl rfl (by simp) rfl

/-- Claim C2 (counterexample). On the diagram whose layer `p` contains both a
layer named `x` and a scenario named `x`, the two sibling nodes from
different collections receive the same path `layers.p.x`, so the path list of
the whole tree is not pairwise distinct. -/
theorem extractLayers_paths_not_unique_counterexample :
    flattenTargets (extractLayers dRootC2 "") = ["layers.p", "layers.p.x", "layers.p.x"] ∧
    ¬ (flattenTargets (extractLayers dRootC2 "")).Nodup := by
  have h : flattenTargets (extractLayers dRootC2 "") =
      ["layers.p", "layers.p.x", "layers.p.x"] := by
    simp [dRootC2, dP, dLayerX, dScenX, extractLayers, extractOpt, extractColl, childPath,
      titleField, extractTitle, Diagram.shapes, Diagram.name, flattenTargets, traverseAcc,
      LayerNode.path, LayerNode.children]
  refine ⟨h, ?_⟩
  rw [h]
  decide

/-- Claim C2 (amended). The `path` values of the `LayerNode` tree produced by
`extractLayers` are pairwise distinct provided that, at every node of the
diagram, the names of the boards across its three collections are pairwise
distinct and contain no dot. (Without this proviso uniqueness fails: two
same-named boards in different collections nested under the same parent
collide, see the counterexample.) -/
theorem extractLayers_paths_unique (d : Diagram) (h : goodNames d = true) :
    (flattenTargets (extractLayers d "")).Nodup := by
  rw [flattenTargets_eq_preorder]
  exact treeNodup d "" h

/-- Witness for the amended C2 theorem at the concrete diagram `dRootC1`. -/
theorem extractLayers_paths_unique_witness :
    goodNames dRootC1 = true ∧ (flattenTargets (extractLayers dRootC1 "")).Nodup := by
  have hg : goodNames dRootC1 = true := by
    simp [dRootC1, dAuth, dTimeout, goodNames, goodOpt, goodList, collNames, collNamesL,
      Diagram.name]
  exact ⟨hg, extractLayers_paths_unique dRootC1 hg⟩

/-- Claim C3. For every `LayerNode` forest, `flattenTargets` returns exactly
the list of `path` fields of all nodes in depth-first pre-order (each node
contributing exactly one element, parents before their descendants), i.e. it
coincides with the manual pre-order traversal `preorderPaths`. -/
theorem flattenTargets_is_preorder (l : List LayerNode) :
    flattenTargets l = preorderPaths l :=
  flattenTargets_eq_preorder l

/-- Claim C10. At every level of the tree, `extractLayers` emits children
grouped by collection kind: the list of node types is a block of `layer`s
(one per non-null entry of `layers`, in order), then a block of
`scenario`s, then a block of `step`s — nodes of different kinds never
interleave. -/
theorem extractLayers_types_grouped (d : Diagram) (pp : String) :
    (extractLayers d pp).map LayerNode.type =
      List.replicate (boardCount d.layers) NType.layer ++
      List.replicate (boardCount d.scenarios) NType.scenario ++
      List.replicate (boardCount d.steps) NType.step := by
  rw [extractLayers_eq]
  simp [extractOpt_map_type]

end D2Viewer
